import Mathlib

/-!
Verification of the HyperSTructureTool ingestion core against its design
specification.  The definitions below are shallow embeddings of the Python
source (src/utils/cypher_generator.py, src/utils/process_text.py,
src/kh_core/neo4j_storage.py): pure functions are translated directly,
stateful graph statements become explicit state transformers, and machine
integers are modelled as Nat with explicit reduction mod 2 ^ 32.
-/

/-! ## Basic character and string helpers -/

/-- The single-quote character, code point 39. -/
def quoteChar : Char := Char.ofNat 39

/-- The backslash character, code point 92. -/
def bslashChar : Char := Char.ofNat 92

/-- Lexicographic comparison of char lists by code point, mirroring the
comparison Python uses for str; executable so that concrete witnesses
evaluate by kernel reduction. -/
def strleAux : List Char → List Char → Bool
  | [], _ => true
  | _ :: _, [] => false
  | a :: as, b :: bs =>
    if a.toNat < b.toNat then true
    else if b.toNat < a.toNat then false
    else strleAux as bs

/-- Non-strict lexicographic order on strings by code point. -/
def strle (a b : String) : Bool := strleAux a.data b.data

/-- The ordering proposition used to instantiate the sorting machinery. -/
def strleP (a b : String) : Prop := strle a b = true

instance : DecidableRel strleP := fun _ _ => inferInstanceAs (Decidable (_ = true))

theorem charToNat_inj {a b : Char} (h : a.toNat = b.toNat) : a = b := by
  apply Char.eq_of_val_eq
  exact UInt32.ext h

theorem strleAux_total (l₁ l₂ : List Char) : strleAux l₁ l₂ = true ∨ strleAux l₂ l₁ = true := by
  induction l₁ generalizing l₂ with
  | nil => left; rfl
  | cons a as ih =>
    cases l₂ with
    | nil => right; rfl
    | cons b bs =>
      by_cases hab : a.toNat < b.toNat
      · left; simp [strleAux, hab]
      · by_cases hba : b.toNat < a.toNat
        · right; simp [strleAux, hba]
        · rcases ih bs with h | h
          · left; simp [strleAux, hab, hba, h]
          · right; simp [strleAux, hab, hba, h]

theorem strleAux_antisymm (l₁ l₂ : List Char) (h₁ : strleAux l₁ l₂ = true)
    (h₂ : strleAux l₂ l₁ = true) : l₁ = l₂ := by
  induction l₁ generalizing l₂ with
  | nil =>
    cases l₂ with
    | nil => rfl
    | cons b bs => simp [strleAux] at h₂
  | cons a as ih =>
    cases l₂ with
    | nil => simp [strleAux] at h₁
    | cons b bs =>
      by_cases hab : a.toNat < b.toNat
      · exfalso
        have : ¬ b.toNat < a.toNat := by omega
        simp [strleAux, this, Nat.lt_irrefl] at h₂
        omega
      · by_cases hba : b.toNat < a.toNat
        · simp [strleAux, hab, hba] at h₁
        · have hab' : a = b := charToNat_inj (by omega)
          subst hab'
          simp [strleAux, hab, hba] at h₁ h₂
          rw [ih bs h₁ h₂]

theorem strleAux_trans (l₁ l₂ l₃ : List Char) (h₁ : strleAux l₁ l₂ = true)
    (h₂ : strleAux l₂ l₃ = true) : strleAux l₁ l₃ = true := by
  induction l₁ generalizing l₂ l₃ with
  | nil => rfl
  | cons a as ih =>
    cases l₂ with
    | nil => simp [strleAux] at h₁
    | cons b bs =>
      cases l₃ with
      | nil => simp [strleAux] at h₂
      | cons c cs =>
        by_cases hab : a.toNat < b.toNat <;> by_cases hbc : b.toNat < c.toNat
        · have : a.toNat < c.toNat := by omega
          simp [strleAux, this]
        · by_cases hcb : c.toNat < b.toNat
          · simp [strleAux, hbc, hcb] at h₂
          · have hbc' : b.toNat = c.toNat := by omega
            have : a.toNat < c.toNat := by omega
            simp [strleAux, this]
        · by_cases hba : b.toNat < a.toNat
          · simp [strleAux, hab, hba] at h₁
          · have : a.toNat < c.toNat := by omega
            simp [strleAux, this]
        · by_cases hba : b.toNat < a.toNat
          · simp [strleAux, hab, hba] at h₁
          · by_cases hcb : c.toNat < b.toNat
            · simp [strleAux, hbc, hcb] at h₂
            · have hac : ¬ a.toNat < c.toNat := by omega
              have hca : ¬ c.toNat < a.toNat := by omega
              simp [strleAux, hab, hba] at h₁
              simp [strleAux, hbc, hcb] at h₂
              simp [strleAux, hac, hca]
              exact ih bs cs h₁ h₂

instance : IsTotal String strleP :=
  ⟨fun a b => strleAux_total a.data b.data⟩

instance : IsTrans String strleP :=
  ⟨fun a b c h₁ h₂ => strleAux_trans a.data b.data c.data h₁ h₂⟩

instance : IsAntisymm String strleP :=
  ⟨fun a b h₁ h₂ => String.ext (strleAux_antisymm a.data b.data h₁ h₂)⟩

/-- Sorting used wherever the source calls sorted on a list of strings. -/
def sortStrs (l : List String) : List String := List.insertionSort strleP l

theorem sortStrs_eq_of_perm {l l' : List String} (h : l.Perm l') :
    sortStrs l = sortStrs l' := by
  apply List.eq_of_perm_of_sorted (r := strleP)
  · exact ((List.perm_insertionSort strleP l).trans h).trans
      (List.perm_insertionSort strleP l').symm
  · exact List.sorted_insertionSort strleP l
  · exact List.sorted_insertionSort strleP l'

theorem dedup_perm_of_mem_iff {l l' : List String} (h : ∀ x, x ∈ l ↔ x ∈ l') :
    l.dedup.Perm l'.dedup := by
  apply List.perm_of_nodup_nodup_toFinset_eq (List.nodup_dedup l) (List.nodup_dedup l')
  ext x
  simp [List.mem_toFinset, List.mem_dedup, h x]

/-! ## SHA-1, modelled with Nat arithmetic mod 2 ^ 32 (hashlib.sha1) -/

/-- Modulus for 32-bit words. -/
def M32 : Nat := 4294967296

/-- Rotate a 32-bit word left by n bits. -/
def rotl32 (n x : Nat) : Nat :=
  ((x <<< n) % M32) ||| (x >>> (32 - n))

/-- UTF-8 encoding of one character, as Python str.encode produces. -/
def utf8Bytes (c : Char) : List Nat :=
  let n := c.toNat
  if n < 128 then [n]
  else if n < 2048 then [192 ||| (n >>> 6), 128 ||| (n &&& 63)]
  else if n < 65536 then
    [224 ||| (n >>> 12), 128 ||| ((n >>> 6) &&& 63), 128 ||| (n &&& 63)]
  else
    [240 ||| (n >>> 18), 128 ||| ((n >>> 12) &&& 63),
     128 ||| ((n >>> 6) &&& 63), 128 ||| (n &&& 63)]

/-- UTF-8 byte sequence of a string. -/
def strBytes (s : String) : List Nat :=
  s.data.foldr (fun c acc => utf8Bytes c ++ acc) []

/-- Big-endian 64-bit byte encoding. -/
def be64 (n : Nat) : List Nat :=
  [56, 48, 40, 32, 24, 16, 8, 0].map (fun sh => (n >>> sh) % 256)

/-- SHA-1 message padding to a multiple of 64 bytes. -/
def sha1Pad (msg : List Nat) : List Nat :=
  let len := msg.length
  let zeros := (119 - (len % 64)) % 64
  msg ++ (128 :: List.replicate zeros 0) ++ be64 (8 * len)

/-- Group bytes into big-endian 32-bit words. -/
def toWords : List Nat → List Nat
  | a :: b :: c :: d :: rest => (((a * 256 + b) * 256 + c) * 256 + d) :: toWords rest
  | _ => []

/-- Split a word list into 16-word blocks; fuel keeps the recursion
structural so that concrete hashes reduce in the kernel. -/
def chunks16Aux : Nat → List Nat → List (List Nat)
  | 0, _ => []
  | _, [] => []
  | fuel + 1, w :: ws => (w :: ws.take 15) :: chunks16Aux fuel (ws.drop 15)

/-- Split a word list into 16-word blocks. -/
def chunks16 (l : List Nat) : List (List Nat) := chunks16Aux l.length l

/-- Message-schedule extension: the list holds newest word first. -/
def extendLoop : Nat → List Nat → List Nat
  | 0, rws => rws
  | n + 1, rws =>
    let w := rotl32 1
      ((((rws.getD 2 0).xor (rws.getD 7 0)).xor (rws.getD 13 0)).xor (rws.getD 15 0))
    extendLoop n (w :: rws)

/-- Round function of SHA-1. -/
def sha1F (i b c d : Nat) : Nat :=
  if i < 20 then ((b &&& c) ||| ((4294967295 ^^^ b) &&& d))
  else if i < 40 then (b ^^^ c) ^^^ d
  else if i < 60 then ((b &&& c) ||| (b &&& d)) ||| (c &&& d)
  else (b ^^^ c) ^^^ d

/-- Round constants of SHA-1. -/
def sha1K (i : Nat) : Nat :=
  if i < 20 then 1518500249
  else if i < 40 then 1859775393
  else if i < 60 then 2400959708
  else 3395469782

/-- One compression round. -/
def sha1Round (st : Nat × Nat × Nat × Nat × Nat) (iw : Nat × Nat) :
    Nat × Nat × Nat × Nat × Nat :=
  let (a, b, c, d, e) := st
  let t := (rotl32 5 a + sha1F iw.1 b c d + e + sha1K iw.1 + iw.2) % M32
  (t, a, rotl32 30 b, c, d)

/-- Process one 16-word block. -/
def sha1Block (h : Nat × Nat × Nat × Nat × Nat) (block : List Nat) :
    Nat × Nat × Nat × Nat × Nat :=
  let ws := (extendLoop 64 block.reverse).reverse
  let (h0, h1, h2, h3, h4) := h
  let (a, b, c, d, e) := ((List.range 80).zip ws).foldl sha1Round h
  ((h0 + a) % M32, (h1 + b) % M32, (h2 + c) % M32, (h3 + d) % M32, (h4 + e) % M32)

/-- Hex digit character for a value below 16. -/
def hexDigit (n : Nat) : Char :=
  if n < 10 then Char.ofNat (48 + n) else Char.ofNat (87 + n)

/-- Lowercase hex rendering of a 32-bit word. -/
def hex32 (n : Nat) : List Char :=
  [28, 24, 20, 16, 12, 8, 4, 0].map (fun sh => hexDigit ((n >>> sh) % 16))

/-- Forty-character lowercase hex digest of a byte sequence. -/
def sha1HexBytes (msg : List Nat) : List Char :=
  let blocks := chunks16 (toWords (sha1Pad msg))
  let (h0, h1, h2, h3, h4) :=
    blocks.foldl sha1Block (1732584193, 4023233417, 2562383102, 271733878, 3285377520)
  hex32 h0 ++ hex32 h1 ++ hex32 h2 ++ hex32 h3 ++ hex32 h4

/-- Digest of a string, as hashlib.sha1(key.encode("utf-8")).hexdigest(). -/
def sha1Hex (s : String) : List Char := sha1HexBytes (strBytes s)

/-- First sixteen hex digits of the digest, as hexdigest()[:16]. -/
def sha1Hex16 (s : String) : String := String.mk ((sha1Hex s).take 16)

set_option maxRecDepth 40000 in
theorem sha1Hex_abc :
    String.mk (sha1Hex "abc") = "a9993e364706816aba3e25717850c26c9cd0d89d" := by decide

/-! ## Escaping (cypher_generator.py, cypher_escape and variants) -/

/-- Core of cypher_escape: double every single quote
(value.replace with two quotes, lines 18-23 of cypher_generator.py). -/
def cypherEscapeList : List Char → List Char
  | [] => []
  | c :: cs =>
    if c = quoteChar then quoteChar :: quoteChar :: cypherEscapeList cs
    else c :: cypherEscapeList cs

/-- The function cypher_escape restricted to string inputs. -/
def cypherEscape (s : String) : String := String.mk (cypherEscapeList s.data)

/-- The function cypher_escape on an optional string: None maps to the
empty string, otherwise quotes are doubled. -/
def cypherEscapeVal : Option String → String
  | none => ""
  | some s => cypherEscape s

/-- Backslash escaping used at cypher_generator.py lines 1256-1257 and 798:
value.replace of a quote by backslash-quote. -/
def backslashEscapeList : List Char → List Char
  | [] => []
  | c :: cs =>
    if c = quoteChar then bslashChar :: quoteChar :: backslashEscapeList cs
    else c :: backslashEscapeList cs

/-- Backslash escaping on strings. -/
def backslashEscape (s : String) : String := String.mk (backslashEscapeList s.data)

/-! ## Content-addressed context ids (cypher_generator.py)

Each site computes a coordinate signature coord_sig by one shared recipe
(point signature or geo: plus sixteen hex digits of SHA-1 over the minified
JSON); the signature enters every key as an opaque string component, so the
key builders below take it as a parameter.  The concrete signature for a
fact with no coordinates is fixed by json.dumps(None) = "null". -/

/-- Null normalisation of a time bound: None, the empty string and the
string "null" all become the token "__NULL__" (lines 369-370, 1232-1233,
1329-1330, 800-801). -/
def normBound : Option String → String
  | none => "__NULL__"
  | some s => if s = "" ∨ s = "null" then "__NULL__" else s

/-- Escaped location name or type on the fresh-creation path (line 303):
cypher_escape applied when the value is truthy, otherwise "unknown". -/
def escNameCreate : Option String → String
  | none => "unknown"
  | some s => if s = "" then "unknown" else cypherEscape s

/-- Escaped location name or type on the append-new-temporal path
(line 1201); same recipe as the fresh-creation path. -/
def escNameAppendTemporal : Option String → String
  | none => "unknown"
  | some s => if s = "" then "unknown" else cypherEscape s

/-- Escaped location name or type on the append-new-spatial path
(lines 1256-1257): backslash escaping instead of quote doubling. -/
def escNameAppendSpatial : Option String → String
  | none => "unknown"
  | some s => if s = "" then "unknown" else backslashEscape s

/-- Escaped location name or type on the modification path (lines 785-786):
cypher_escape of the value, with falsy values replaced by "unknown" first. -/
def escNameMod (o : Option String) : String :=
  cypherEscape (match o with
    | none => "unknown"
    | some s => if s = "" then "unknown" else s)

/-- Signature for absent coordinates: geo: plus sixteen hex digits of SHA-1
over the minified JSON "null" (json.dumps(None)); identical at all four
sites (lines 380-384, 1227-1231, 1324-1328, 794-799). -/
def coordSigNull : String := "geo:" ++ sha1Hex16 "null"

/-- Semantic content of a context node: time bounds, location name and
type, and the coordinate signature. -/
structure CtxContent where
  startTime : Option String
  endTime : Option String
  locName : Option String
  locType : Option String
  coordSig : String
deriving DecidableEq

/-- Context key on the fresh temporal-fact creation path (line 385):
start, end, name, type, signature joined by single bars. -/
def ctxKeyCreate (c : CtxContent) : String :=
  normBound c.startTime ++ "|" ++ normBound c.endTime ++ "|" ++
    escNameCreate c.locName ++ "|" ++ escNameCreate c.locType ++ "|" ++ c.coordSig

/-- Context key on the append-new-temporal path (line 1234). -/
def ctxKeyAppendTemporal (c : CtxContent) : String :=
  normBound c.startTime ++ "|" ++ normBound c.endTime ++ "|" ++
    escNameAppendTemporal c.locName ++ "|" ++ escNameAppendTemporal c.locType ++ "|" ++ c.coordSig

/-- Context key on the append-new-spatial path (line 1331). -/
def ctxKeyAppendSpatial (c : CtxContent) : String :=
  normBound c.startTime ++ "|" ++ normBound c.endTime ++ "|" ++
    escNameAppendSpatial c.locName ++ "|" ++ escNameAppendSpatial c.locType ++ "|" ++ c.coordSig

/-- Context key on the modification rewiring path (line 802): the
components appear in the order start, name, type, signature, end. -/
def ctxKeyMod (c : CtxContent) : String :=
  normBound c.startTime ++ "|" ++ escNameMod c.locName ++ "|" ++
    escNameMod c.locType ++ "|" ++ c.coordSig ++ "|" ++ normBound c.endTime

/-- Context id on the fresh-creation path (line 386). -/
def ctxIdCreate (c : CtxContent) : String := "ctx_" ++ sha1Hex16 (ctxKeyCreate c)

/-- Context id on the append-new-temporal path (line 1235). -/
def ctxIdAppendTemporal (c : CtxContent) : String := "ctx_" ++ sha1Hex16 (ctxKeyAppendTemporal c)

/-- Context id on the append-new-spatial path (line 1332). -/
def ctxIdAppendSpatial (c : CtxContent) : String := "ctx_" ++ sha1Hex16 (ctxKeyAppendSpatial c)

/-- Context id on the modification rewiring path (line 803). -/
def ctxIdMod (c : CtxContent) : String := "ctx_" ++ sha1Hex16 (ctxKeyMod c)

/-- Whether an optional string contains a single quote. -/
def hasQuote : Option String → Bool
  | none => false
  | some s => s.data.contains quoteChar

/-! ## Deterministic hyperedge id (cypher_generator.py lines 420-432) -/

/-- Key for the deterministic hyperedge id: escaped relation, escaped
sorted subjects, escaped sorted objects, and the sorted deduplicated
context ids, joined by double bars. -/
def heKey (rel : String) (subjects objects ctxIds : List String) : String :=
  String.intercalate "||"
    [cypherEscape rel,
     String.intercalate "|" ((sortStrs subjects).map cypherEscape),
     String.intercalate "|" ((sortStrs objects).map cypherEscape),
     String.intercalate "|" (sortStrs (sortStrs ctxIds.dedup))]

/-- Deterministic hyperedge id (line 432). -/
def heId (rel : String) (subjects objects ctxIds : List String) : String :=
  "he_" ++ sha1Hex16 (heKey rel subjects objects ctxIds)

/-! ## Escape lemmas shared by the identity and safety claims -/

theorem bslash_ne_quote : bslashChar ≠ quoteChar := by decide

theorem cypherEscapeList_eq_bind (l : List Char) :
    cypherEscapeList l =
      l.flatMap (fun c => if c = quoteChar then [quoteChar, quoteChar] else [c]) := by
  induction l with
  | nil => rfl
  | cons c cs ih =>
    by_cases hc : c = quoteChar <;> simp [cypherEscapeList, hc, ih]

theorem backslashEscapeList_eq_bind (l : List Char) :
    backslashEscapeList l =
      l.flatMap (fun c => if c = quoteChar then [bslashChar, quoteChar] else [c]) := by
  induction l with
  | nil => rfl
  | cons c cs ih =>
    by_cases hc : c = quoteChar <;> simp [backslashEscapeList, hc, ih]

theorem cypherEscapeList_of_no_quote {l : List Char} (h : quoteChar ∉ l) :
    cypherEscapeList l = l := by
  induction l with
  | nil => rfl
  | cons c cs ih =>
    have hc : c ≠ quoteChar := fun hc => h (hc ▸ List.mem_cons_self c cs)
    simp only [cypherEscapeList, if_neg hc]
    rw [ih (fun hm => h (List.mem_cons_of_mem c hm))]

theorem backslashEscapeList_of_no_quote {l : List Char} (h : quoteChar ∉ l) :
    backslashEscapeList l = l := by
  induction l with
  | nil => rfl
  | cons c cs ih =>
    have hc : c ≠ quoteChar := fun hc => h (hc ▸ List.mem_cons_self c cs)
    simp only [backslashEscapeList, if_neg hc]
    rw [ih (fun hm => h (List.mem_cons_of_mem c hm))]

theorem escapeList_ne_of_quote {l : List Char} (h : quoteChar ∈ l) :
    backslashEscapeList l ≠ cypherEscapeList l := by
  induction l with
  | nil => cases h
  | cons c cs ih =>
    by_cases hc : c = quoteChar
    · subst hc
      simp only [backslashEscapeList, cypherEscapeList, if_pos rfl]
      intro heq
      exact bslash_ne_quote (List.cons.injEq .. ▸ heq).1
    · have hm : quoteChar ∈ cs := by
        rcases List.mem_cons.mp h with h' | h'
        · exact absurd h'.symm hc
        · exact h'
      simp only [backslashEscapeList, cypherEscapeList, if_neg hc]
      intro heq
      exact ih hm (List.cons.injEq .. ▸ heq).2

theorem contains_false_iff_not_mem (l : List Char) (c : Char) :
    l.contains c = false ↔ c ∉ l := by
  rw [← Bool.not_eq_true]
  exact not_congr List.elem_iff

theorem backslashEscape_eq_cypherEscape_iff (s : String) :
    backslashEscape s = cypherEscape s ↔ s.data.contains quoteChar = false := by
  constructor
  · intro h
    rw [contains_false_iff_not_mem]
    intro hm
    exact escapeList_ne_of_quote hm (congrArg String.data h)
  · intro h
    have hnm := (contains_false_iff_not_mem s.data quoteChar).mp h
    unfold backslashEscape cypherEscape
    rw [backslashEscapeList_of_no_quote hnm, cypherEscapeList_of_no_quote hnm]

/-! ## Claim C8: the escape function and its use sites -/

/-- A concrete string containing a single quote. -/
def quoteSample : String := String.mk ['O', quoteChar, 'B', 'r', 'i', 'e', 'n']

/-- The single-quote character as a one-character string. -/
def quoteStr : String := String.mk [quoteChar]

/-- The function cypher_quote (cypher_generator.py lines 26-27): the
escaped value wrapped in single quotes. -/
def cypherQuote (v : Option String) : String := quoteStr ++ cypherEscapeVal v ++ quoteStr

/-- Time-bound literal on the append paths (lines 1207-1216, used in the
ON CREATE SET of line 1237, and lines 1305-1313, used at line 1334): the
raw value wrapped in single quotes with no escaping; None, the empty
string and the string "null" become the null literal. -/
def appendTimeLiteral : Option String → String
  | none => "null"
  | some s => if s = "null" ∨ s = "" then "null" else quoteStr ++ s ++ quoteStr

/-- Coordinate-JSON literal on the append paths (build_coordinates_cypher
line 93, used at line 1237, and line 1299, used at line 1334): the JSON
text wrapped raw in single quotes with no escaping. -/
def appendCoordJsonLiteral (j : String) : String := quoteStr ++ j ++ quoteStr

/-- Time-bound literal on the modification path (lines 783-784): null for
absent bounds, otherwise cypher_quote of the value. -/
def modTimeLiteral : Option String → String
  | none => "null"
  | some s => if s = "" ∨ s = "null" then "null" else cypherQuote (some s)

/-- C8 counterexample: the claim asserts that every site embedding a
user-supplied string as a Cypher literal applies the quote-doubling escape,
but the append-path new-spatial context name site (cypher_generator.py
lines 1256-1257) applies backslash escaping, which differs from the
quote-doubling escape on any input containing a single quote. -/
theorem C8_counterexample :
    escNameAppendSpatial (some quoteSample) ≠ cypherEscape quoteSample := by decide

theorem cypherEscapeList_length (l : List Char) :
    (cypherEscapeList l).length = l.length + l.count quoteChar := by
  induction l with
  | nil => rfl
  | cons c cs ih =>
    by_cases hc : c = quoteChar
    · subst hc
      simp only [cypherEscapeList, if_pos rfl, List.length_cons, ih, List.count_cons]
      simp
      omega
    · simp only [cypherEscapeList, if_neg hc, List.length_cons, ih, List.count_cons]
      simp [hc]
      omega

theorem count_pos_of_contains {l : List Char} (h : l.contains quoteChar = true) :
    0 < l.count quoteChar :=
  List.count_pos_iff.mpr (List.elem_iff.mp h)

theorem rawQuoted_ne_escaped (s : String) (h : s.data.contains quoteChar = true) :
    quoteStr ++ s ++ quoteStr ≠ quoteStr ++ cypherEscape s ++ quoteStr := by
  intro heq
  have hlen : (quoteStr ++ s ++ quoteStr).data.length =
      (quoteStr ++ cypherEscape s ++ quoteStr).data.length :=
    congrArg (fun t : String => t.data.length) heq
  have h1 : (quoteStr ++ s ++ quoteStr).data = quoteStr.data ++ s.data ++ quoteStr.data := rfl
  have h2 : (quoteStr ++ cypherEscape s ++ quoteStr).data =
      quoteStr.data ++ cypherEscapeList s.data ++ quoteStr.data := rfl
  rw [h1, h2] at hlen
  simp only [List.length_append, cypherEscapeList_length] at hlen
  have := count_pos_of_contains h
  omega

/-- C8 amended: cypher_escape doubles every single quote and maps None to
the empty string; it is applied to the location name and spatial type at
the fresh-creation and append-new-temporal context sites, and the
modification path quotes its time bounds through it; but quote doubling
is not applied everywhere a user-supplied string is embedded as a
literal: the append new-spatial name/type site and the modification-path
coordinate JSON escape quotes with a backslash instead (agreeing with
quote doubling exactly on quote-free strings), and the append paths
embed their time bounds and coordinate JSON as raw single-quoted
literals with no escaping at all. -/
theorem C8_escape_amended :
    (cypherEscapeVal none = "") ∧
    (∀ l : List Char, cypherEscapeList l =
      l.flatMap (fun c => if c = quoteChar then [quoteChar, quoteChar] else [c])) ∧
    (∀ s : String, s ≠ "" → escNameCreate (some s) = cypherEscape s ∧
      escNameAppendTemporal (some s) = cypherEscape s) ∧
    (∀ s : String, s ≠ "" → escNameAppendSpatial (some s) = backslashEscape s) ∧
    (∀ s : String, backslashEscape s = cypherEscape s ↔ s.data.contains quoteChar = false) ∧
    (∀ s : String, ¬ (s = "null" ∨ s = "") →
      appendTimeLiteral (some s) = quoteStr ++ s ++ quoteStr) ∧
    (∀ s : String, s.data.contains quoteChar = true →
      appendTimeLiteral (some s) ≠ quoteStr ++ cypherEscape s ++ quoteStr) ∧
    (∀ j : String, j.data.contains quoteChar = true →
      appendCoordJsonLiteral j ≠ quoteStr ++ cypherEscape j ++ quoteStr) ∧
    (∀ s : String, ¬ (s = "" ∨ s = "null") →
      modTimeLiteral (some s) = quoteStr ++ cypherEscape s ++ quoteStr) := by
  have hraw : ∀ s : String, ¬ (s = "null" ∨ s = "") →
      appendTimeLiteral (some s) = quoteStr ++ s ++ quoteStr := by
    intro s hs
    simp only [appendTimeLiteral]
    rw [if_neg hs]
  refine ⟨rfl, cypherEscapeList_eq_bind, ?_, ?_, backslashEscape_eq_cypherEscape_iff,
    hraw, ?_, ?_, ?_⟩
  · intro s hs
    constructor <;> simp [escNameCreate, escNameAppendTemporal, hs]
  · intro s hs
    simp [escNameAppendSpatial, hs]
  · intro s h
    have hnn : ¬ (s = "null" ∨ s = "") := by
      rintro (rfl | rfl) <;> exact absurd h (by decide)
    rw [hraw s hnn]
    exact rawQuoted_ne_escaped s h
  · intro j h
    exact rawQuoted_ne_escaped j h
  · intro s hs
    simp only [modTimeLiteral]
    rw [if_neg hs]
    rfl

/-- C8 witness: the amended statement instantiated at a concrete string
with a single quote, exhibiting the unescaped append-path time-bound
literal. -/
theorem C8_escape_amended_witness :
    appendTimeLiteral (some quoteSample) ≠
      quoteStr ++ cypherEscape quoteSample ++ quoteStr :=
  C8_escape_amended.2.2.2.2.2.2.1 quoteSample (by decide)

/-! ## Claim C1: context identity across construction paths -/

/-- Concrete context content used to separate the construction paths. -/
def ctxSample : CtxContent :=
  { startTime := some "2020-01-01T00:00:00"
    endTime := some "2020-12-31T23:59:59"
    locName := some "home"
    locType := some "unknown"
    coordSig := coordSigNull }

set_option maxRecDepth 100000 in
/-- C1 counterexample: the modification rewiring path hashes the key with
components ordered start, name, type, signature, end (cypher_generator.py
line 802), so at this concrete content it produces a different context id
from the fresh-creation path (line 385), refuting the claim that all paths
compute the id over the key start, end, name, type, signature. -/
theorem C1_counterexample : ctxIdMod ctxSample ≠ ctxIdCreate ctxSample := by decide

set_option maxRecDepth 100000 in
/-- C1 amended: the fresh-creation and append-new-temporal paths compute
identical ids for identical content; the append-new-spatial path agrees
whenever the location name and type contain no single quote (it escapes
quotes with backslashes rather than doubling); the modification rewiring
path hashes the components in the order start, name, type, signature, end
and therefore assigns a different id to the same content, witnessed at a
concrete context. -/
theorem C1_context_id_amended :
    (∀ c : CtxContent, ctxIdAppendTemporal c = ctxIdCreate c) ∧
    (∀ c : CtxContent, hasQuote c.locName = false → hasQuote c.locType = false →
      ctxIdAppendSpatial c = ctxIdCreate c) ∧
    ctxIdMod ctxSample ≠ ctxIdCreate ctxSample := by
  refine ⟨fun c => rfl, ?_, by decide⟩
  intro c hn ht
  have hesc : ∀ o : Option String, hasQuote o = false →
      escNameAppendSpatial o = escNameCreate o := by
    intro o ho
    match o with
    | none => rfl
    | some s =>
      by_cases hs : s = ""
      · simp [escNameAppendSpatial, escNameCreate, hs]
      · have hnm := (contains_false_iff_not_mem s.data quoteChar).mp ho
        simp only [escNameAppendSpatial, escNameCreate, if_neg hs]
        unfold backslashEscape cypherEscape
        rw [backslashEscapeList_of_no_quote hnm, cypherEscapeList_of_no_quote hnm]
  unfold ctxIdAppendSpatial ctxIdCreate ctxKeyAppendSpatial ctxKeyCreate
  rw [hesc c.locName hn, hesc c.locType ht]

set_option maxRecDepth 100000 in
/-- C1 witness: the amended agreement instantiated at the concrete content. -/
theorem C1_context_id_amended_witness :
    ctxIdAppendSpatial ctxSample = ctxIdCreate ctxSample :=
  C1_context_id_amended.2.1 ctxSample (by decide) (by decide)

/-! ## Claim C2: hyperedge id invariance -/

/-- C2: the deterministic hyperedge id is invariant under permutation of
the subjects, permutation of the objects, and any change of the context-id
list that preserves its set of members (hence permutation and
duplication), because subjects and objects are sorted and context ids are
deduplicated and sorted before hashing (cypher_generator.py lines
420-432). -/
theorem C2_hyperedge_id_invariant :
    ∀ (rel : String) (s s' o o' c c' : List String),
      s.Perm s' → o.Perm o' → (∀ x, x ∈ c ↔ x ∈ c') →
      heId rel s o c = heId rel s' o' c' := by
  intro rel s s' o o' c c' hs ho hc
  have h3 : sortStrs (sortStrs c.dedup) = sortStrs (sortStrs c'.dedup) := by
    rw [sortStrs_eq_of_perm (dedup_perm_of_mem_iff hc)]
  unfold heId heKey
  rw [sortStrs_eq_of_perm hs, sortStrs_eq_of_perm ho, h3]

/-- C2 witness: reordering subjects and duplicating a context id leaves
the hyperedge id unchanged at a concrete input. -/
theorem C2_hyperedge_id_invariant_witness :
    heId "likes" ["b", "a"] ["x"] ["k", "k"] = heId "likes" ["a", "b"] ["x"] ["k"] :=
  C2_hyperedge_id_invariant "likes" ["b", "a"] ["a", "b"] ["x"] ["x"] ["k", "k"] ["k"]
    (List.Perm.swap "a" "b" []) (List.Perm.refl _) (by intro x; simp)

/-! ## Python string primitives used by process_text.py -/

/-- The full stop character. -/
def dotChar : Char := '.'

/-- Whitespace recognised by Python str.strip and the regex whitespace
class, restricted to the ASCII range (the source also accepts the rare
Unicode whitespace code points). -/
def pyIsSpace (c : Char) : Bool :=
  c.toNat = 32 || c.toNat = 9 || c.toNat = 10 || c.toNat = 13 || c.toNat = 11 || c.toNat = 12

/-- Python str.split with a one-character separator: splits at every
occurrence, keeping empty segments. -/
def pySplitChar (sep : Char) : List Char → List (List Char)
  | [] => [[]]
  | c :: cs =>
    let rest := pySplitChar sep cs
    if c = sep then [] :: rest
    else
      match rest with
      | r :: rs => (c :: r) :: rs
      | [] => [[c]]

/-- Python str.strip on a char list. -/
def pyStripList (l : List Char) : List Char :=
  ((l.dropWhile pyIsSpace).reverse.dropWhile pyIsSpace).reverse

/-- Python str.strip. -/
def pyStrip (s : String) : String := String.mk (pyStripList s.data)

/-- Python str.lower, restricted to the ASCII range of Char.toLower. -/
def pyLower (s : String) : String := String.mk (s.data.map Char.toLower)

/-- Whether the first list occurs at the start of the second. -/
def startsWithList : List Char → List Char → Bool
  | [], _ => true
  | _ :: _, [] => false
  | a :: as, b :: bs => a = b && startsWithList as bs

/-- Whether the first list occurs contiguously anywhere in the second,
the Python substring test. -/
def isSubstrList (p : List Char) : List Char → Bool
  | [] => startsWithList p []
  | b :: bs => startsWithList p (b :: bs) || isSubstrList p bs

/-! ## Claim C9: modification-sentence classifier
(process_text.py, detect_modification_sentences, lines 739-872) -/

/-- The keyword list of the classifier (line 760). -/
def modificationIndicators : List String :=
  ["actually", "in fact", "oops", "my mistake", "update", "correction", "modification"]

/-- Keyword test: the lowercased sentence contains one of the indicators
(line 770). -/
def isModificationSentence (s : String) : Bool :=
  modificationIndicators.any (fun k => isSubstrList k.data (pyLower s).data)

/-- Sentences of the keyword pass: the text split on full stops, each
segment stripped, empty segments dropped (line 764). -/
def kwSentences (text : String) : List String :=
  (((pySplitChar dotChar text.data).map pyStripList).filter (fun l => l ≠ [])).map String.mk

/-- Keyword-pass regular sentences (lines 768-775). -/
def kwRegs (text : String) : List String :=
  (kwSentences text).filter (fun s => !(isModificationSentence s))

/-- Keyword-pass modification sentences (lines 768-775). -/
def kwMods (text : String) : List String :=
  (kwSentences text).filter isModificationSentence

/-- Result of the keyword pass: joined regular text (whole input when no
regular sentence survives) and joined modification text (lines 779-781). -/
def detectKeywordPass (text : String) : String × String :=
  (if kwRegs text = [] then text else String.intercalate ". " (kwRegs text),
   if kwMods text = [] then "" else String.intercalate ". " (kwMods text))

/-- Outcome of the optional LLM refinement call: disabled, failed (error
or empty parse), or parsed into two sentence lists. -/
inductive LlmRefinement where
  | disabled
  | failed
  | parsed (regs mods : List String)

/-- The function detect_modification_sentences: the keyword pass, with the
LLM refinement outcome threaded explicitly (lines 777-872). -/
def detectModificationSentences (text : String) (r : LlmRefinement) : String × String :=
  match r with
  | .disabled => detectKeywordPass text
  | .failed => detectKeywordPass text
  | .parsed regs mods =>
    if regs ≠ [] ∨ mods ≠ [] then
      (if regs = [] then text else String.intercalate "\n" regs,
       if mods = [] then "" else String.intercalate "\n" mods)
    else detectKeywordPass text

/-- Characters the specification treats as sentence-terminal punctuation. -/
def sentenceEndChars : List Char := ['.', '!', '?']

/-- Python-style split at every occurrence of any of several separator
characters, keeping empty segments. -/
def pySplitAnyChar (seps : List Char) : List Char → List (List Char)
  | [] => [[]]
  | c :: cs =>
    let rest := pySplitAnyChar seps cs
    if seps.contains c then [] :: rest
    else
      match rest with
      | r :: rs => (c :: r) :: rs
      | [] => [[c]]

/-- The classifier as the claim describes it: split on sentence-terminal
punctuation (full stop, exclamation mark, question mark), then classify
each stripped segment by the keyword test and join. -/
def claimedKeywordPass (text : String) : String × String :=
  let sentences :=
    (((pySplitAnyChar sentenceEndChars text.data).map pyStripList).filter
      (fun l => l ≠ [])).map String.mk
  let regs := sentences.filter (fun s => !(isModificationSentence s))
  let mods := sentences.filter isModificationSentence
  (if regs = [] then text else String.intercalate ". " regs,
   if mods = [] then "" else String.intercalate ". " mods)

/-- C9 counterexample: the classifier splits only on full stops, not on
all sentence-terminal punctuation, so on a text whose first sentence ends
with an exclamation mark the code classifies the whole text as one
modification sentence while the claimed behaviour separates the regular
second sentence. -/
theorem C9_counterexample :
    detectModificationSentences "Oops! John likes cats." .failed ≠
      claimedKeywordPass "Oops! John likes cats." := by decide

theorem pySplitChar_of_not_mem {sep : Char} {l : List Char} (h : sep ∉ l) :
    pySplitChar sep l = [l] := by
  induction l with
  | nil => rfl
  | cons c cs ih =>
    have hc : c ≠ sep := fun hc => h (hc ▸ List.mem_cons_self c cs)
    have hcs : sep ∉ cs := fun hm => h (List.mem_cons_of_mem c hm)
    simp only [pySplitChar, if_neg (fun hcc => hc hcc), ih hcs]

/-- C9 amended: the classifier splits the text on full stops only (a text
without a full stop is never split, whatever other punctuation it holds),
a split sentence is classified as a modification exactly when its
lowercased form contains one of the seven indicator substrings, and when
the LLM refinement call fails the keyword-pass split is returned
unchanged. -/
theorem C9_classifier_amended :
    (∀ text, detectModificationSentences text .failed = detectKeywordPass text) ∧
    (∀ text s, s ∈ kwMods text → isModificationSentence s = true) ∧
    (∀ text s, s ∈ kwRegs text → isModificationSentence s = false) ∧
    (∀ s, isModificationSentence s = true ↔
      ∃ k ∈ modificationIndicators, isSubstrList k.data (pyLower s).data = true) ∧
    (∀ text, dotChar ∉ text.data →
      kwSentences text =
        if pyStripList text.data = [] then [] else [String.mk (pyStripList text.data)]) := by
  refine ⟨fun _ => rfl, ?_, ?_, ?_, ?_⟩
  · intro text s hs
    exact List.of_mem_filter hs
  · intro text s hs
    have := List.of_mem_filter hs
    simpa using this
  · intro s
    simp [isModificationSentence, List.any_eq_true]
  · intro text h
    unfold kwSentences
    rw [pySplitChar_of_not_mem h]
    by_cases hst : pyStripList text.data = [] <;> simp [hst]

/-- C9 witness: the amended behaviour at a concrete text containing an
indicator keyword. -/
theorem C9_classifier_amended_witness :
    kwSentences "Oops! John likes cats" =
      [String.mk (pyStripList ("Oops! John likes cats").data)] := by
  have h := C9_classifier_amended.2.2.2.2 "Oops! John likes cats" (by decide)
  rw [h]
  decide

/-! ## Claim C3: all-or-nothing causal-inference gate
(process_text.py, chunking_streaming_pipeline, lines 1276-1306 and 1359-1400) -/

/-- Outcome recorded for one sanitised temporal fact: the graph write
succeeded (lines 1276-1278, also the no-connection path 1303-1305),
failed or raised (lines 1292-1302), or the generated query was empty and
no tally was recorded (lines 1297-1298). -/
inductive WriteOutcome where
  | success
  | failure
  | emptyQuery
deriving DecidableEq, BEq

/-- Length of successful_temporal_facts (line 1366). -/
def successCount (os : List WriteOutcome) : Nat :=
  (os.filter (fun o => o == .success)).length

/-- Length of failed_temporal_facts (line 1367). -/
def failedCount (os : List WriteOutcome) : Nat :=
  (os.filter (fun o => o == .failure)).length

/-- Whether the state-fact extraction phase runs: the fact list is
non-empty (line 1359), no fact failed (line 1374) and at least one fact
succeeded (line 1382). -/
def causalPhaseRuns (os : List WriteOutcome) : Bool :=
  !os.isEmpty && failedCount os == 0 && successCount os != 0

/-- StateChangeEvent write set produced for the input: the extracted state
facts when the gate passes, nothing otherwise (lines 1374-1385 return
before extract_structured_state_facts). -/
def stateChangeEventWrites (os : List WriteOutcome) (stateFacts : List String) : List String :=
  if causalPhaseRuns os then stateFacts else []

/-- C3: if any temporal-fact write failed, or no temporal fact succeeded,
the causal-inference phase is skipped and no StateChangeEvent is created
for the input; the gate is exactly the comparison of the success and
failure tallies recorded during the regular-sentence phase. -/
theorem C3_all_or_nothing_gate :
    (∀ (os : List WriteOutcome) (sf : List String),
      WriteOutcome.failure ∈ os → stateChangeEventWrites os sf = []) ∧
    (∀ (os : List WriteOutcome) (sf : List String),
      successCount os = 0 → stateChangeEventWrites os sf = []) ∧
    (∀ os : List WriteOutcome,
      causalPhaseRuns os = true ↔ (os ≠ [] ∧ failedCount os = 0 ∧ 0 < successCount os)) := by
  have hchar : ∀ os : List WriteOutcome,
      causalPhaseRuns os = true ↔ (os ≠ [] ∧ failedCount os = 0 ∧ 0 < successCount os) := by
    intro os
    unfold causalPhaseRuns
    simp [List.isEmpty_iff, Nat.pos_iff_ne_zero, and_assoc]
  refine ⟨?_, ?_, hchar⟩
  · intro os sf hmem
    unfold stateChangeEventWrites
    have hfail : failedCount os ≠ 0 := by
      unfold failedCount
      intro hlen
      rw [List.length_eq_zero] at hlen
      have : WriteOutcome.failure ∈ os.filter (fun o => o == .failure) :=
        List.mem_filter.mpr ⟨hmem, by decide⟩
      rw [hlen] at this
      cases this
    cases hc : causalPhaseRuns os with
    | false => simp
    | true => exact absurd ((hchar os).mp hc).2.1 hfail
  · intro os sf hzero
    unfold stateChangeEventWrites
    cases hc : causalPhaseRuns os with
    | false => simp
    | true => exact absurd ((hchar os).mp hc).2.2 (by omega)

/-- C3 witness: with one successful and one failed write the causal phase
is skipped and no StateChangeEvent is written. -/
theorem C3_all_or_nothing_gate_witness :
    stateChangeEventWrites [WriteOutcome.success, WriteOutcome.failure] ["sce_1"] = [] :=
  C3_all_or_nothing_gate.1 [WriteOutcome.success, WriteOutcome.failure] ["sce_1"]
    (List.mem_cons_of_mem _ (List.mem_cons_self _ _))

/-! ## Claim C10: sentence splitting and chunking
(process_text.py, split_into_sentences lines 1521-1545 and
split_text_into_chunks lines 1497-1518) -/

/-- Whether the previous character is one of the sentence-ending marks of
the lookbehind class. -/
def prevIsPunct : Option Char → Bool
  | none => false
  | some p => p = '.' || p = '!' || p = '?'

/-- Regex split at each maximal whitespace run immediately preceded by a
sentence-ending mark (re.split with a lookbehind, line 1536); fuel keeps
the recursion structural. -/
def splitSentencesAux : Nat → Option Char → List Char → List Char → List (List Char)
  | 0, _, acc, _ => [acc.reverse]
  | _, _, acc, [] => [acc.reverse]
  | fuel + 1, prev, acc, c :: cs =>
    if pyIsSpace c && prevIsPunct prev then
      acc.reverse :: splitSentencesAux fuel none [] (cs.dropWhile pyIsSpace)
    else
      splitSentencesAux fuel (some c) (c :: acc) cs

/-- The raw segments the regex split produces on a text. -/
def rawSentenceSegments (text : String) : List (List Char) :=
  splitSentencesAux text.data.length none [] text.data

/-- The function split_into_sentences: strip each segment and keep the
non-empty ones longer than three characters (lines 1539-1545). -/
def splitIntoSentences (text : String) : List String :=
  ((((rawSentenceSegments text).map pyStripList).filter
    (fun l => !l.isEmpty && decide (3 < l.length))).map String.mk)

/-- Chunk grouping loop of split_text_into_chunks (lines 1512-1516); fuel
keeps the recursion structural.  Python raises for a zero chunk size, so
all statements below assume a positive size. -/
def chunksFuel : Nat → Nat → Nat → List String → List (Nat × String)
  | 0, _, _, _ => []
  | _, _, _, [] => []
  | fuel + 1, size, idx, l =>
    (idx, String.intercalate " " (l.take size)) :: chunksFuel fuel size (idx + 1) (l.drop size)

/-- The function split_text_into_chunks. -/
def splitTextIntoChunks (text : String) (size : Nat) : List (Nat × String) :=
  let sentences := splitIntoSentences text
  chunksFuel sentences.length size 0 sentences

/-- Number of chunks a list of n sentences yields at a given chunk size. -/
def specNumChunks (size n : Nat) : Nat := (n + size - 1) / size

/-- Chunk list described directly: chunk k carries index k and the k-th
consecutive block of size sentences joined by single spaces. -/
def specChunks (size : Nat) (sentences : List String) : List (Nat × String) :=
  (List.range (specNumChunks size sentences.length)).map
    (fun k => (k, String.intercalate " " ((sentences.drop (k * size)).take size)))

theorem specNumChunks_zero {size : Nat} (hs : 0 < size) : specNumChunks size 0 = 0 := by
  unfold specNumChunks
  exact Nat.div_eq_of_lt (by omega)

theorem specNumChunks_succ {size n : Nat} (hs : 0 < size) (hn : 0 < n) :
    specNumChunks size n = specNumChunks size (n - size) + 1 := by
  unfold specNumChunks
  by_cases hle : n ≤ size
  · have h1 : n - size = 0 := by omega
    rw [h1]
    have hz : (0 + size - 1) / size = 0 := Nat.div_eq_of_lt (by omega)
    rw [hz]
    have : n + size - 1 = (n - 1) + 1 * size := by omega
    rw [this, Nat.add_mul_div_right _ _ hs, Nat.div_eq_of_lt (by omega)]
  · have h1 : n - size + size - 1 = n - 1 := by omega
    have h2 : n + size - 1 = (n - 1) + size := by omega
    rw [h1, h2, Nat.add_div_right _ hs]

theorem chunksFuel_eq_spec {size : Nat} (hs : 0 < size) :
    ∀ (fuel : Nat) (l : List String) (idx : Nat), l.length ≤ fuel →
      chunksFuel fuel size idx l =
        (List.range (specNumChunks size l.length)).map
          (fun k => (idx + k, String.intercalate " " ((l.drop (k * size)).take size))) := by
  intro fuel
  induction fuel with
  | zero =>
    intro l idx hl
    have : l = [] := List.eq_nil_of_length_eq_zero (by omega)
    subst this
    simp [chunksFuel, specNumChunks_zero hs]
  | succ fuel ih =>
    intro l idx hl
    cases l with
    | nil => simp [chunksFuel, specNumChunks_zero hs]
    | cons s ls =>
      have hlen : 0 < (s :: ls).length := by simp
      rw [chunksFuel, specNumChunks_succ hs hlen]
      have hdrop : ((s :: ls).drop size).length ≤ fuel := by
        rw [List.length_drop]
        simp only [List.length_cons] at hl ⊢
        omega
      rw [ih ((s :: ls).drop size) (idx + 1) hdrop]
      rw [List.range_succ_eq_map]
      simp only [List.map_cons, List.map_map]
      refine congrArg₂ List.cons ?_ ?_
      · simp
      · rw [List.length_drop]
        apply List.map_congr_left
        intro k _
        simp only [Function.comp_apply]
        rw [List.drop_drop]
        have h1 : idx + 1 + k = idx + Nat.succ k := by omega
        have h2 : size + k * size = Nat.succ k * size := by
          rw [Nat.succ_mul, Nat.add_comm]
        rw [h1, h2]
      · intro h
        cases h

/-- C10: every sentence split_into_sentences returns is longer than three
characters; the returned list is exactly the stripped regex segments with
the short ones dropped; and for a positive chunk size the chunks are
exactly the consecutive blocks of that many sentences, carrying the chunk
indices 0, 1, 2, and so on in order. -/
theorem C10_sentence_chunking :
    (∀ text s, s ∈ splitIntoSentences text → 3 < s.length) ∧
    (∀ text, splitIntoSentences text =
      (((rawSentenceSegments text).map pyStripList).filter
        (fun l => !l.isEmpty && decide (3 < l.length))).map String.mk) ∧
    (∀ text size, 0 < size →
      splitTextIntoChunks text size = specChunks size (splitIntoSentences text)) ∧
    (∀ text size, 0 < size →
      (splitTextIntoChunks text size).map Prod.fst =
        List.range (specNumChunks size (splitIntoSentences text).length)) := by
  have hchunks : ∀ text size, 0 < size →
      splitTextIntoChunks text size = specChunks size (splitIntoSentences text) := by
    intro text size hsz
    unfold splitTextIntoChunks specChunks
    rw [chunksFuel_eq_spec hsz (splitIntoSentences text).length (splitIntoSentences text) 0
      (Nat.le_refl _)]
    apply List.map_congr_left
    intro k _
    simp
  refine ⟨?_, fun _ => rfl, hchunks, ?_⟩
  · intro text s hs
    unfold splitIntoSentences at hs
    rcases List.mem_map.mp hs with ⟨l, hl, rfl⟩
    have := List.of_mem_filter hl
    simp only [Bool.and_eq_true, decide_eq_true_eq] at this
    exact this.2
  · intro text size hsz
    rw [hchunks text size hsz]
    unfold specChunks
    rw [List.map_map]
    have : (Prod.fst ∘ fun k =>
        ((k : Nat), String.intercalate " " (((splitIntoSentences text).drop (k * size)).take size)))
        = id := by
      funext k
      rfl
    rw [this, List.map_id]

/-- C10 witness: chunking a concrete two-sentence text at size one yields
the two indexed chunks. -/
theorem C10_sentence_chunking_witness :
    splitTextIntoChunks "John likes cats. Mary runs fast." 1 =
      specChunks 1 (splitIntoSentences "John likes cats. Mary runs fast.") :=
  C10_sentence_chunking.2.2.1 "John likes cats. Mary runs fast." 1 (by decide)

/-! ## Claim C7: polygon decimation in the geocoder
(process_text.py, expand_spatial, lines 155-240)

The source computes the sampling stride in floating point
(step = n / float(target), idx = int(k * step)); the model uses the exact
value k * n / target in natural division.  The bounds proved below do not
depend on the exact index values, only on the sample count. -/

/-- The hard vertex cap MAX_POINTS (line 160). -/
def maxPolyPoints : Nat := 20

/-- ensure_closed (lines 162-167): append the first vertex when the ring
is not closed. -/
def ensureClosed {α : Type} [DecidableEq α] : List α → List α
  | [] => []
  | a :: as => if (a :: as).getLast? = some a then a :: as else (a :: as) ++ [a]

/-- ring_unique_vertices (lines 169-172): drop the duplicated closing
vertex of a closed ring. -/
def ringUniqueVertices {α : Type} [DecidableEq α] : List α → List α
  | [] => []
  | a :: as => if (a :: as).getLast? = some a then (a :: as).dropLast else a :: as

/-- Final closing step of decimate_ring (lines 196-198): append the first
vertex unless the list is already closed.  The source indexes an empty
list here and would raise; provider rings are non-empty, and the model
returns the empty list in that unreachable case. -/
def closeRing {α : Type} [DecidableEq α] : List α → List α
  | [] => []
  | a :: rest => if (a :: rest).getLast? = some a then a :: rest else (a :: rest) ++ [a]

/-- decimate_ring (lines 174-199): close, deduplicate the closing vertex,
keep small rings, otherwise sample target_vertices indices at an even
stride starting at index 0 and trimmed to the target, and re-close. -/
def decimateRing {α : Type} [DecidableEq α] (r : List α) (target : Nat) : List α :=
  let ring := ensureClosed r
  let unique := ringUniqueVertices ring
  let n := unique.length
  let out :=
    if n ≤ max 4 target then unique
    else
      let indices0 := (List.range target).map (fun k => k * n / target)
      let indices1 := if 0 ∈ indices0 then indices0 else 0 :: indices0
      let indices2 := indices1.take target
      indices2.filterMap (fun i => unique[i]?)
  closeRing out

/-- A polygonal geometry returned by the boundary provider: a Polygon is a
list of rings, a MultiPolygon a list of polygons. -/
inductive GeoJson (α : Type) where
  | polygon (rings : List (List α))
  | multiPolygon (polys : List (List (List α)))

/-- Result of the decimation step: a simplified geometry of the same kind,
or the fallback to the provider-supplied point. -/
inductive GeomResult (α : Type) where
  | polygon (rings : List (List α))
  | multiPolygon (polys : List (List (List α)))
  | point
deriving DecidableEq

/-- The polygon list the source normalises the geometry into (lines
202-205). -/
def polysOf {α : Type} : GeoJson α → List (List (List α))
  | .polygon rings => [rings]
  | .multiPolygon ps => ps

/-- num_rings (line 207). -/
def numRingsOf {α : Type} (g : GeoJson α) : Nat :=
  ((polysOf g).map List.length).sum

/-- The decimation branch of expand_spatial (lines 207-240): fall back to
the provider point for ringless geometries and whenever even four vertices
per ring would exceed the cap; otherwise decimate every ring to the
per-ring cap. -/
def expandSpatialGeom {α : Type} [DecidableEq α] (g : GeoJson α) : GeomResult α :=
  let polygons := polysOf g
  let numRings := numRingsOf g
  if numRings = 0 then .point
  else if numRings * 4 > maxPolyPoints then .point
  else
    let cap := max 4 (maxPolyPoints / numRings)
    let simplified := polygons.map (fun p => p.map (fun r => decimateRing r cap))
    match g with
    | .polygon _ => .polygon (simplified.headD [])
    | .multiPolygon _ => .multiPolygon simplified

/-- Number of vertices of a ring, not counting the duplicated closing
vertex. -/
def ringVertexCount {α : Type} [DecidableEq α] (r : List α) : Nat :=
  (ringUniqueVertices r).length

/-- Total vertex count of a decimation result, not counting closing
duplicates. -/
def resultVertexTotal {α : Type} [DecidableEq α] : GeomResult α → Nat
  | .point => 0
  | .polygon rings => (rings.map ringVertexCount).sum
  | .multiPolygon polys => (polys.map (fun p => (p.map ringVertexCount).sum)).sum

theorem natSumMapLe {α : Type} (l : List α) (f : α → Nat) (c : Nat)
    (h : ∀ x ∈ l, f x ≤ c) : (l.map f).sum ≤ l.length * c := by
  induction l with
  | nil => simp
  | cons a as ih =>
    simp only [List.map_cons, List.sum_cons, List.length_cons]
    have h1 : f a ≤ c := h a (List.mem_cons_self a as)
    have h2 : (as.map f).sum ≤ as.length * c := ih (fun x hx => h x (List.mem_cons_of_mem a hx))
    calc f a + (as.map f).sum ≤ c + as.length * c := by omega
    _ = (as.length + 1) * c := by ring


theorem closeRing_count_le {α : Type} [DecidableEq α] (out : List α) :
    ringVertexCount (closeRing out) ≤ out.length := by
  cases out with
  | nil => simp [closeRing, ringVertexCount, ringUniqueVertices]
  | cons a rest =>
    unfold closeRing
    by_cases hc : (a :: rest).getLast? = some a
    · simp only [if_pos hc]
      unfold ringVertexCount ringUniqueVertices
      simp only [if_pos hc]
      rw [List.length_dropLast]
      simp
    · simp only [if_neg hc]
      unfold ringVertexCount ringUniqueVertices
      have hc2 : (a :: (rest ++ [a])).getLast? = some a := by
        rw [← List.cons_append]
        exact List.getLast?_concat _
      simp only [List.cons_append, if_pos hc2]
      have hdl : (a :: (rest ++ [a])).dropLast = a :: rest := by
        rw [← List.cons_append]
        exact List.dropLast_concat
      rw [hdl]

theorem closeRing_head {α : Type} [DecidableEq α] (out : List α) (h : out ≠ []) :
    (closeRing out).head? = out.head? := by
  cases out with
  | nil => exact absurd rfl h
  | cons a rest =>
    unfold closeRing
    by_cases hc : (a :: rest).getLast? = some a
    · simp [if_pos hc]
    · simp [if_neg hc]

theorem closeRing_closed {α : Type} [DecidableEq α] (out : List α) :
    closeRing out = [] ∨ (closeRing out).head? = (closeRing out).getLast? := by
  cases out with
  | nil => left; rfl
  | cons a rest =>
    right
    unfold closeRing
    by_cases hc : (a :: rest).getLast? = some a
    · simp only [if_pos hc]
      rw [hc]
      simp
    · simp only [if_neg hc]
      rw [List.getLast?_concat]
      simp

theorem decimateRing_count_le {α : Type} [DecidableEq α] (r : List α) (target : Nat)
    (htgt : 4 ≤ target) : ringVertexCount (decimateRing r target) ≤ target := by
  unfold decimateRing
  set unique := ringUniqueVertices (ensureClosed r) with hu
  by_cases hn : unique.length ≤ max 4 target
  · simp only [if_pos hn]
    calc ringVertexCount (closeRing unique) ≤ unique.length := closeRing_count_le unique
    _ ≤ target := by omega
  · simp only [if_neg hn]
    set indices0 := (List.range target).map (fun k => k * unique.length / target) with hi0
    set indices1 := if 0 ∈ indices0 then indices0 else 0 :: indices0 with hi1
    calc ringVertexCount (closeRing ((indices1.take target).filterMap (fun i => unique[i]?)))
        ≤ ((indices1.take target).filterMap (fun i => unique[i]?)).length :=
          closeRing_count_le _
    _ ≤ (indices1.take target).length := List.length_filterMap_le _ _
    _ ≤ target := by rw [List.length_take]; omega

theorem filterMap_getElem_zero_head {α : Type} (u0 : α) (utail : List α) (ix : List Nat) :
    List.filterMap (fun i => (u0 :: utail)[i]?) (0 :: ix) =
      u0 :: List.filterMap (fun i => (u0 :: utail)[i]?) ix := by
  simp [List.filterMap_cons]

theorem decimateRing_head {α : Type} [DecidableEq α] (r : List α) (target : Nat)
    (htgt : 0 < target) (hne : decimateRing r target ≠ []) :
    (decimateRing r target).head? = (ringUniqueVertices (ensureClosed r)).head? := by
  unfold decimateRing at hne ⊢
  by_cases hn : (ringUniqueVertices (ensureClosed r)).length ≤ max 4 target
  · simp only [if_pos hn] at hne ⊢
    apply closeRing_head
    intro hempty
    rw [hempty] at hne
    exact hne rfl
  · simp only [if_neg hn] at hne ⊢
    have h4 : 4 ≤ max 4 target := Nat.le_max_left _ _
    have hlen : 4 < (ringUniqueVertices (ensureClosed r)).length := by
      push_neg at hn
      omega
    obtain ⟨u0, utail, hunique⟩ :
        ∃ u0 utail, ringUniqueVertices (ensureClosed r) = u0 :: utail := by
      cases hq : ringUniqueVertices (ensureClosed r) with
      | nil => rw [hq] at hlen; simp at hlen
      | cons x xs => exact ⟨x, xs, rfl⟩
    obtain ⟨t, rfl⟩ : ∃ t, target = t + 1 := ⟨target - 1, by omega⟩
    rw [hunique] at hne ⊢
    have hrange : (List.range (t + 1)).map (fun k => k * (u0 :: utail).length / (t + 1)) =
        0 :: (List.range t).map (fun k => Nat.succ k * (u0 :: utail).length / (t + 1)) := by
      rw [List.range_succ_eq_map]
      simp [List.map_map, Function.comp]
    rw [hrange] at hne ⊢
    have hmem : (0 : Nat) ∈
        (0 :: (List.range t).map (fun k => Nat.succ k * (u0 :: utail).length / (t + 1))) :=
      List.mem_cons_self _ _
    rw [if_pos hmem] at hne ⊢
    rw [List.take_succ_cons] at hne ⊢
    rw [filterMap_getElem_zero_head] at hne ⊢
    rw [closeRing_head _ (by simp)]
    simp

theorem natSumMapMul {α : Type} (l : List α) (f : α → Nat) (c : Nat) :
    (l.map (fun x => f x * c)).sum = (l.map f).sum * c := by
  induction l with
  | nil => simp
  | cons a as ih => simp [ih, Nat.add_mul]

theorem expandSpatialGeom_total_le {α : Type} [DecidableEq α] (g : GeoJson α) :
    resultVertexTotal (expandSpatialGeom g) ≤ maxPolyPoints := by
  unfold expandSpatialGeom
  by_cases h0 : numRingsOf g = 0
  · simp [h0, resultVertexTotal]
  · by_cases h4 : numRingsOf g * 4 > maxPolyPoints
    · simp [h0, h4, resultVertexTotal]
    · simp only [if_neg h0, if_neg h4]
      have hr1 : 1 ≤ numRingsOf g := Nat.pos_of_ne_zero h0
      have hr5 : numRingsOf g ≤ 5 := by
        unfold maxPolyPoints at h4
        omega
      have hdiv4 : 4 ≤ maxPolyPoints / numRingsOf g := by
        have h45 : maxPolyPoints / 5 ≤ maxPolyPoints / numRingsOf g :=
          Nat.div_le_div_left hr5 hr1
        have : maxPolyPoints / 5 = 4 := by decide
        omega
      have hcap : max 4 (maxPolyPoints / numRingsOf g) = maxPolyPoints / numRingsOf g :=
        Nat.max_eq_right hdiv4
      set cap := max 4 (maxPolyPoints / numRingsOf g) with hcapdef
      have hcap4 : 4 ≤ cap := Nat.le_max_left _ _
      have hringbound : ∀ p : List (List α),
          ((p.map (fun r => decimateRing r cap)).map ringVertexCount).sum ≤ p.length * cap := by
        intro p
        rw [List.map_map]
        apply natSumMapLe
        intro x _
        exact decimateRing_count_le x cap hcap4
      have hmono : ∀ polys : List (List (List α)),
          ((polys.map (fun p => p.map (fun r => decimateRing r cap))).map
            (fun p => (p.map ringVertexCount).sum)).sum ≤
          ((polys.map List.length).sum) * cap := by
        intro polys
        rw [List.map_map]
        calc (polys.map ((fun p => (p.map ringVertexCount).sum) ∘
                (fun p => p.map (fun r => decimateRing r cap)))).sum
            ≤ (polys.map (fun p => p.length * cap)).sum := by
              apply List.sum_le_sum
              intro p _
              exact hringbound p
        _ = ((polys.map List.length).sum) * cap := natSumMapMul polys List.length cap
      have hmain : ∀ polys : List (List (List α)),
          (polys.map List.length).sum = numRingsOf g →
          ((polys.map (fun p => p.map (fun r => decimateRing r cap))).map
            (fun p => (p.map ringVertexCount).sum)).sum ≤ maxPolyPoints := by
        intro polys hnr
        refine Nat.le_trans (hmono polys) ?_
        rw [hnr, hcap, Nat.mul_comm]
        exact Nat.div_mul_le_self _ _
      cases g with
      | polygon rings =>
        have h1 := hmain [rings] (by simp [numRingsOf, polysOf])
        simp only [polysOf, List.map_cons, List.map_nil, List.headD_cons, resultVertexTotal]
        simp only [List.map_cons, List.map_nil, List.sum_cons, List.sum_nil] at h1
        omega
      | multiPolygon ps =>
        have h1 := hmain ps (by simp [numRingsOf, polysOf])
        simpa [resultVertexTotal, polysOf] using h1

/-- C7: the geocoder decimation keeps the total vertex count across all
rings (counting each closed ring without its duplicated closing vertex) at
or below twenty; a geometry whose minimal four-vertex-per-ring
representation would exceed the cap falls back to the provider point, as
does a ringless one; every decimated ring is re-closed; when sampling
happens the first vertex (index zero) is kept; and each ring is trimmed to
at most the per-ring cap. -/
theorem C7_polygon_decimation :
    (∀ (α : Type) (_ : DecidableEq α) (g : GeoJson α),
      resultVertexTotal (expandSpatialGeom g) ≤ maxPolyPoints) ∧
    (∀ (α : Type) (_ : DecidableEq α) (g : GeoJson α),
      maxPolyPoints < numRingsOf g * 4 → expandSpatialGeom g = .point) ∧
    (∀ (α : Type) (_ : DecidableEq α) (g : GeoJson α),
      numRingsOf g = 0 → expandSpatialGeom g = .point) ∧
    (∀ (α : Type) (_ : DecidableEq α) (r : List α) (target : Nat),
      decimateRing r target = [] ∨
        (decimateRing r target).head? = (decimateRing r target).getLast?) ∧
    (∀ (α : Type) (_ : DecidableEq α) (r : List α) (target : Nat),
      0 < target → decimateRing r target ≠ [] →
        (decimateRing r target).head? = (ringUniqueVertices (ensureClosed r)).head?) ∧
    (∀ (α : Type) (_ : DecidableEq α) (r : List α) (target : Nat),
      4 ≤ target → ringVertexCount (decimateRing r target) ≤ target) := by
  refine ⟨?_, ?_, ?_, ?_, ?_, ?_⟩
  · intro α inst g
    exact expandSpatialGeom_total_le g
  · intro α inst g h
    unfold expandSpatialGeom
    by_cases h0 : numRingsOf g = 0
    · simp [h0]
    · simp only [if_neg h0]
      rw [if_pos (by omega)]
  · intro α inst g h
    unfold expandSpatialGeom
    simp [h]
  · intro α inst r target
    unfold decimateRing
    exact closeRing_closed _
  · intro α inst r target ht hne
    exact decimateRing_head r target ht hne
  · intro α inst r target ht
    exact decimateRing_count_le r target ht

/-- C7 witness: a single square ring of eight vertices is decimated to the
twenty-vertex cap, stays closed, keeps its first vertex, and a concrete
six-ring geometry falls back to the point. -/
theorem C7_polygon_decimation_witness :
    resultVertexTotal (expandSpatialGeom (GeoJson.polygon
      [[[0, 0], [1, 0], [2, 0], [2, 1], [2, 2], [1, 2], [0, 2], [0, 1], [0, 0]]] :
        GeoJson (List Nat))) ≤ maxPolyPoints ∧
    expandSpatialGeom (GeoJson.multiPolygon
      [[[[0]]], [[[1]]], [[[2]]], [[[3]]], [[[4]]], [[[5]]]] : GeoJson (List Nat)) =
      GeomResult.point :=
  ⟨C7_polygon_decimation.1 (List Nat) inferInstance _,
   C7_polygon_decimation.2.1 (List Nat) inferInstance _ (by decide)⟩

/-! ## Claim C5: no orphaned Context nodes
(cypher_generator.py lines 806-810 and neo4j_storage.py lines 636-650)

The graph fragment these statements touch is the set of VALID_IN edges
from hyperedge ids to context ids together with the set of context node
ids.  Cypher clause order gives read-your-writes semantics: the orphan
check runs after every old edge of the hyperedge has been deleted. -/

/-- The VALID_IN fragment of the graph: edges (hyperedge id, context id)
and the context node ids. -/
structure ValidGraph where
  validIn : List (String × String)
  ctxIds : List String
deriving DecidableEq

/-- Shared shape of both statements: delete every edge satisfying the
detach predicate, then delete each context that was detached and has no
remaining incoming VALID_IN edge. -/
def detachAndPrune (E : List (String × String)) (C : List String)
    (P : String × String → Prop) [DecidablePred P] : ValidGraph :=
  let olds := (E.filter (fun e => decide (P e))).map Prod.snd
  let kept := E.filter (fun e => decide (¬ P e))
  let deleted := olds.filter (fun c => decide (∀ e ∈ kept, e.2 ≠ c))
  { validIn := kept.filter (fun e => decide (e.2 ∉ deleted)),
    ctxIds := C.filter (fun c => decide (c ∉ deleted)) }

/-- Combined temporal and spatial modification rewiring (lines 806-810):
MERGE the new context node and its VALID_IN edge from the hyperedge, then
detach all other contexts of the hyperedge and prune the orphaned ones. -/
def modRewireContexts (g : ValidGraph) (h newCtx : String) : ValidGraph :=
  let ctxIds1 := if newCtx ∈ g.ctxIds then g.ctxIds else g.ctxIds ++ [newCtx]
  let validIn1 := if (h, newCtx) ∈ g.validIn then g.validIn else g.validIn ++ [(h, newCtx)]
  detachAndPrune validIn1 ctxIds1 (fun e => e.1 = h ∧ e.2 ≠ newCtx)

/-- Context part of delete_hyperedge (neo4j_storage.py lines 638-645):
detach every context of the hyperedge and prune the orphaned ones. -/
def deleteHyperedgeContexts (g : ValidGraph) (h : String) : ValidGraph :=
  detachAndPrune g.validIn g.ctxIds (fun e => e.1 = h)

theorem mem_detachAndPrune_ctx (E : List (String × String)) (C : List String)
    (P : String × String → Prop) [DecidablePred P] (c : String) :
    c ∈ (detachAndPrune E C P).ctxIds ↔
      c ∈ C ∧ ¬((∃ e ∈ E, P e ∧ e.2 = c) ∧ (∀ e ∈ E, ¬ P e → e.2 ≠ c)) := by
  unfold detachAndPrune
  simp only [List.mem_filter, decide_eq_true_eq, List.mem_map]
  aesop

theorem mem_validIn1 (g : ValidGraph) (h newCtx : String) (e : String × String) :
    (e ∈ (if (h, newCtx) ∈ g.validIn then g.validIn else g.validIn ++ [(h, newCtx)])) ↔
      e ∈ g.validIn ∨ e = (h, newCtx) := by
  by_cases hm : (h, newCtx) ∈ g.validIn
  · rw [if_pos hm]
    constructor
    · exact Or.inl
    · rintro (he | rfl)
      · exact he
      · exact hm
  · rw [if_neg hm]
    simp [List.mem_append]

theorem mem_ctxIds1 (g : ValidGraph) (newCtx c : String) :
    (c ∈ (if newCtx ∈ g.ctxIds then g.ctxIds else g.ctxIds ++ [newCtx])) ↔
      c ∈ g.ctxIds ∨ c = newCtx := by
  by_cases hm : newCtx ∈ g.ctxIds
  · rw [if_pos hm]
    constructor
    · exact Or.inl
    · rintro (he | rfl)
      · exact he
      · exact hm
  · rw [if_neg hm]
    simp [List.mem_append]

theorem modRewire_not_mem_iff (g : ValidGraph) (h newCtx c : String)
    (hc : c ∈ g.ctxIds) (hne : c ≠ newCtx) :
    c ∉ (modRewireContexts g h newCtx).ctxIds ↔
      ((h, c) ∈ g.validIn ∧ ∀ e ∈ g.validIn, e.2 = c → e.1 = h) := by
  unfold modRewireContexts
  rw [mem_detachAndPrune_ctx]
  have hc1 : c ∈ (if newCtx ∈ g.ctxIds then g.ctxIds else g.ctxIds ++ [newCtx]) :=
    (mem_ctxIds1 g newCtx c).mpr (Or.inl hc)
  constructor
  · intro hnot
    by_contra hcon
    apply hnot
    refine ⟨hc1, ?_⟩
    rintro ⟨⟨e, heV, heP, hec⟩, hall⟩
    apply hcon
    rcases (mem_validIn1 g h newCtx e).mp heV with heg | rfl
    · constructor
      · have : e = (h, c) := by
          cases e
          simp only [Prod.mk.injEq]
          exact ⟨heP.1, hec⟩
        rw [← this]
        exact heg
      · intro e2 he2 he2c
        by_contra he2h
        have hnp : ¬ (e2.1 = h ∧ e2.2 ≠ newCtx) := fun hp => he2h hp.1
        exact hall e2 ((mem_validIn1 g h newCtx e2).mpr (Or.inl he2)) hnp he2c
    · exact absurd hec.symm hne
  · rintro ⟨hin, hall⟩ ⟨_, hnd⟩
    apply hnd
    constructor
    · exact ⟨(h, c), (mem_validIn1 g h newCtx (h, c)).mpr (Or.inl hin), ⟨rfl, hne⟩, rfl⟩
    · intro e heV hnp
      rcases (mem_validIn1 g h newCtx e).mp heV with heg | rfl
      · intro hec
        exact hnp ⟨hall e heg hec, hec ▸ hne⟩
      · intro hec
        exact hne (hec.symm)

theorem deleteHyperedge_not_mem_iff (g : ValidGraph) (h c : String) (hc : c ∈ g.ctxIds) :
    c ∉ (deleteHyperedgeContexts g h).ctxIds ↔
      ((h, c) ∈ g.validIn ∧ ∀ e ∈ g.validIn, e.2 = c → e.1 = h) := by
  unfold deleteHyperedgeContexts
  rw [mem_detachAndPrune_ctx]
  constructor
  · intro hnot
    by_contra hcon
    apply hnot
    refine ⟨hc, ?_⟩
    rintro ⟨⟨e, heV, heP, hec⟩, hall⟩
    apply hcon
    constructor
    · have : e = (h, c) := by
        cases e
        simp only [Prod.mk.injEq]
        exact ⟨heP, hec⟩
      rw [← this]
      exact heV
    · intro e2 he2 he2c
      by_contra he2h
      exact hall e2 he2 he2h he2c
  · rintro ⟨hin, hall⟩ ⟨_, hnd⟩
    apply hnd
    exact ⟨⟨(h, c), hin, rfl, rfl⟩, fun e heV hnp hec => hnp (hall e heV hec)⟩

theorem modRewire_newCtx_mem (g : ValidGraph) (h newCtx : String) :
    newCtx ∈ (modRewireContexts g h newCtx).ctxIds := by
  unfold modRewireContexts
  rw [mem_detachAndPrune_ctx]
  refine ⟨(mem_ctxIds1 g newCtx newCtx).mpr (Or.inr rfl), ?_⟩
  rintro ⟨⟨e, heV, heP, hec⟩, _⟩
  exact heP.2 hec

/-- C5: during the combined temporal and spatial modification rewiring,
an old context node is deleted in the same statement exactly when it has
no incoming VALID_IN edge left after the hyperedge is detached from it;
the merged replacement context always survives; a context shared with a
second hyperedge always survives; and hyperedge deletion prunes old
contexts by the same orphan rule. -/
theorem C5_no_orphan_contexts :
    (∀ (g : ValidGraph) (h newCtx c : String), c ∈ g.ctxIds → c ≠ newCtx →
      (c ∉ (modRewireContexts g h newCtx).ctxIds ↔
        ((h, c) ∈ g.validIn ∧ ∀ e ∈ g.validIn, e.2 = c → e.1 = h))) ∧
    (∀ (g : ValidGraph) (h newCtx : String),
      newCtx ∈ (modRewireContexts g h newCtx).ctxIds) ∧
    (∀ (g : ValidGraph) (h newCtx c h2 : String), c ∈ g.ctxIds → h2 ≠ h →
      (h2, c) ∈ g.validIn → c ∈ (modRewireContexts g h newCtx).ctxIds) ∧
    (∀ (g : ValidGraph) (h c : String), c ∈ g.ctxIds →
      (c ∉ (deleteHyperedgeContexts g h).ctxIds ↔
        ((h, c) ∈ g.validIn ∧ ∀ e ∈ g.validIn, e.2 = c → e.1 = h))) := by
  refine ⟨modRewire_not_mem_iff, modRewire_newCtx_mem, ?_, deleteHyperedge_not_mem_iff⟩
  intro g h newCtx c h2 hc hne hin
  by_cases hcn : c = newCtx
  · subst hcn
    exact modRewire_newCtx_mem g h c
  · by_contra hnot
    have := (modRewire_not_mem_iff g h newCtx c hc hcn).mp hnot
    exact hne (this.2 (h2, c) hin rfl)

/-- C5 witness: a context shared between two hyperedges survives the
rewiring of one of them, at a concrete graph. -/
theorem C5_no_orphan_contexts_witness :
    "ctx_1" ∈ (modRewireContexts
      ⟨[("he_a", "ctx_1"), ("he_b", "ctx_1")], ["ctx_1"]⟩ "he_a" "ctx_2").ctxIds :=
  C5_no_orphan_contexts.2.2.1
    ⟨[("he_a", "ctx_1"), ("he_b", "ctx_1")], ["ctx_1"]⟩ "he_a" "ctx_2" "ctx_1" "he_b"
    (by decide) (by decide) (by decide)

/-! ## Claim C6: append-vs-create decision
(cypher_generator.py, method of finding an appendable hyperedge,
lines 918-1143)

A hyperedge is viewed through exactly the data the probe queries read:
its id, relation type, the entities connected with the subject and object
roles, and the time bounds and location names of its contexts.  The
collect DISTINCT aggregations become list deduplication, coalesce of null
properties becomes Option.getD with the token "__NULL__", ORDER BY id
LIMIT 1 becomes a left fold keeping the smallest id, and the follow-up
full-data query succeeds exactly when the hyperedge has at least one
subject edge, one object edge and one context. -/

/-- Context as the probe queries read it. -/
structure CtxView where
  fromTime : Option String
  toTime : Option String
  locationName : Option String
deriving DecidableEq

/-- Hyperedge as the probe queries read it. -/
structure HView where
  id : String
  relationType : String
  subjEdges : List String
  objEdges : List String
  ctxs : List CtxView
deriving DecidableEq

/-- Query parameters of the probe (lines 1086-1092): relation, subject
and object lists, coalesced time pairs and coalesced location names. -/
structure FactQuery where
  relation : String
  subjectsList : List String
  objectsList : List String
  temporalTimes : List (String × String)
  spatialNames : List String
deriving DecidableEq

/-- The coalesced distinct time pairs of a hyperedge (collect DISTINCT of
the coalesced from and to times). -/
def ctxTimePairs (h : HView) : List (String × String) :=
  (h.ctxs.map (fun c => (c.fromTime.getD "__NULL__", c.toTime.getD "__NULL__"))).dedup

/-- The coalesced distinct location names of a hyperedge. -/
def ctxLocNames (h : HView) : List String :=
  (h.ctxs.map (fun c => c.locationName.getD "__NULL__")).dedup

/-- Set equality as the queries express it: size equality plus mutual
containment of the distinct graph-side list and the parameter list. -/
def setEqList {α : Type} [DecidableEq α] (graphList paramList : List α) : Prop :=
  graphList.length = paramList.length ∧
    (∀ x ∈ graphList, x ∈ paramList) ∧ (∀ x ∈ paramList, x ∈ graphList)

instance {α : Type} [DecidableEq α] (g p : List α) : Decidable (setEqList g p) := by
  unfold setEqList
  infer_instance

/-- Criterion 1 (lines 957-1013): relation, objects and contexts match.
A fact without objects matches only hyperedges without object edges; the
time and name conditions are added only when the corresponding parameter
list is non-empty, and their MATCH clauses require at least one context. -/
def crit1 (f : FactQuery) (h : HView) : Prop :=
  h.relationType = f.relation ∧
  (if f.objectsList ≠ [] then setEqList h.objEdges.dedup f.objectsList
   else h.objEdges = []) ∧
  (f.temporalTimes ≠ [] → h.ctxs ≠ [] ∧ setEqList (ctxTimePairs h) f.temporalTimes) ∧
  (f.spatialNames ≠ [] → h.ctxs ≠ [] ∧ setEqList (ctxLocNames h) f.spatialNames)

/-- Criterion 2 (lines 1015-1048): subjects, relation and objects match. -/
def crit2 (f : FactQuery) (h : HView) : Prop :=
  h.relationType = f.relation ∧
  (h.subjEdges ≠ [] ∧ setEqList h.subjEdges.dedup f.subjectsList) ∧
  (if f.objectsList ≠ [] then setEqList h.objEdges.dedup f.objectsList
   else h.objEdges = [])

/-- Criterion 3 (lines 1050-1082): subjects, relation and contexts match. -/
def crit3 (f : FactQuery) (h : HView) : Prop :=
  h.relationType = f.relation ∧
  (h.subjEdges ≠ [] ∧ setEqList h.subjEdges.dedup f.subjectsList) ∧
  (f.temporalTimes ≠ [] → h.ctxs ≠ [] ∧ setEqList (ctxTimePairs h) f.temporalTimes) ∧
  (f.spatialNames ≠ [] → h.ctxs ≠ [] ∧ setEqList (ctxLocNames h) f.spatialNames)

instance (f : FactQuery) (h : HView) : Decidable (crit1 f h) := by
  unfold crit1
  infer_instance

instance (f : FactQuery) (h : HView) : Decidable (crit2 f h) := by
  unfold crit2
  infer_instance

instance (f : FactQuery) (h : HView) : Decidable (crit3 f h) := by
  unfold crit3
  infer_instance

/-- The criterion predicates indexed as in the source loop. -/
def critN : Nat → FactQuery → HView → Prop
  | 1, f, h => crit1 f h
  | 2, f, h => crit2 f h
  | 3, f, h => crit3 f h
  | _, _, _ => False

instance (k : Nat) (f : FactQuery) (h : HView) : Decidable (critN k f h) := by
  unfold critN
  split <;> infer_instance

/-- ORDER BY h.id ascending with LIMIT 1: the candidate with the smallest
id. -/
def selMinId (hs : List HView) : Option HView :=
  hs.foldl (fun acc h =>
    match acc with
    | none => some h
    | some m => if strle m.id h.id then some m else some h) none

/-- The follow-up full-data query (lines 1102-1122) matches subject
edges, object edges and contexts non-optionally, so it returns a record
exactly when all three exist. -/
def fullDataAvailable (h : HView) : Prop :=
  h.subjEdges ≠ [] ∧ h.objEdges ≠ [] ∧ h.ctxs ≠ []

instance (h : HView) : Decidable (fullDataAvailable h) := by
  unfold fullDataAvailable
  infer_instance

/-- One iteration of the criterion loop: run the probe query for the
criterion, keep the smallest-id candidate, and return it together with
the criterion number when the full-data fetch succeeds. -/
def tryCriterion (g : List HView) (f : FactQuery) (k : Nat) : Option (HView × Nat) :=
  match selMinId (g.filter (fun h => decide (critN k f h))) with
  | some h => if fullDataAvailable h then some (h, k) else none
  | none => none

/-- The append-vs-create probe: criteria tried in the order 1, 2, 3, with
criteria 2 and 3 skipped for an empty subject list (the continue at lines
1016 and 1051); the first criterion producing a usable candidate wins. -/
def findAppendableHyperedge (g : List HView) (f : FactQuery) : Option (HView × Nat) :=
  match tryCriterion g f 1 with
  | some r => some r
  | none =>
    match (if f.subjectsList = [] then none else tryCriterion g f 2) with
    | some r => some r
    | none => if f.subjectsList = [] then none else tryCriterion g f 3

theorem strle_refl (s : String) : strle s s = true := by
  unfold strle
  induction s.data with
  | nil => rfl
  | cons a as ih => simp [strleAux, Nat.lt_irrefl, ih]

theorem strle_trans {a b c : String} (h₁ : strle a b = true) (h₂ : strle b c = true) :
    strle a c = true :=
  strleAux_trans a.data b.data c.data h₁ h₂

theorem strle_total (a b : String) : strle a b = true ∨ strle b a = true :=
  strleAux_total a.data b.data

theorem selMinAux (hs : List HView) : ∀ (m h : HView),
    hs.foldl (fun acc x =>
      match acc with
      | none => some x
      | some m => if strle m.id x.id then some m else some x) (some m) = some h →
    (h = m ∨ h ∈ hs) ∧ strle h.id m.id = true ∧ ∀ h2 ∈ hs, strle h.id h2.id = true := by
  induction hs with
  | nil =>
    intro m h hf
    simp only [List.foldl_nil, Option.some.injEq] at hf
    subst hf
    exact ⟨Or.inl rfl, strle_refl _, by simp⟩
  | cons a t ih =>
    intro m h hf
    simp only [List.foldl_cons] at hf
    by_cases hma : strle m.id a.id = true
    · rw [if_pos hma] at hf
      obtain ⟨hmem, hm, hall⟩ := ih m h hf
      refine ⟨?_, hm, ?_⟩
      · rcases hmem with rfl | hmem
        · exact Or.inl rfl
        · exact Or.inr (List.mem_cons_of_mem a hmem)
      · intro h2 hh2
        rcases List.mem_cons.mp hh2 with rfl | hh2
        · exact strle_trans hm hma
        · exact hall h2 hh2
    · rw [if_neg hma] at hf
      obtain ⟨hmem, hm, hall⟩ := ih a h hf
      have ham : strle a.id m.id = true := by
        rcases strle_total m.id a.id with hc | hc
        · exact absurd hc hma
        · exact hc
      refine ⟨?_, strle_trans hm ham, ?_⟩
      · rcases hmem with rfl | hmem
        · exact Or.inr (List.mem_cons_self _ _)
        · exact Or.inr (List.mem_cons_of_mem _ hmem)
      · intro h2 hh2
        rcases List.mem_cons.mp hh2 with rfl | hh2
        · exact hm
        · exact hall h2 hh2

theorem selMinId_spec (hs : List HView) (h : HView) (hf : selMinId hs = some h) :
    h ∈ hs ∧ ∀ h2 ∈ hs, strle h.id h2.id = true := by
  cases hs with
  | nil => simp [selMinId] at hf
  | cons a t =>
    unfold selMinId at hf
    rw [List.foldl_cons] at hf
    obtain ⟨hmem, hma, hall⟩ := selMinAux t a h hf
    refine ⟨?_, ?_⟩
    · rcases hmem with rfl | hmem
      · exact List.mem_cons_self _ _
      · exact List.mem_cons_of_mem a hmem
    · intro h2 hh2
      rcases List.mem_cons.mp hh2 with rfl | hh2
      · exact hma
      · exact hall h2 hh2

theorem tryCriterion_spec (g : List HView) (f : FactQuery) (k : Nat) (h : HView) (k2 : Nat)
    (ht : tryCriterion g f k = some (h, k2)) :
    k2 = k ∧ h ∈ g ∧ critN k f h ∧ fullDataAvailable h ∧
      ∀ h2 ∈ g, critN k f h2 → strle h.id h2.id = true := by
  unfold tryCriterion at ht
  cases hsel : selMinId (g.filter (fun x => decide (critN k f x))) with
  | none => rw [hsel] at ht; cases ht
  | some hm =>
    rw [hsel] at ht
    replace ht : (if fullDataAvailable hm then some (hm, k) else none) = some (h, k2) := ht
    by_cases hfd : fullDataAvailable hm
    · rw [if_pos hfd] at ht
      obtain ⟨heq1, heq2⟩ : hm = h ∧ k = k2 := by
        injection ht with ht2
        injection ht2 with hl hr
        exact ⟨hl, hr⟩
      subst heq1
      subst heq2
      obtain ⟨hmemf, hmin⟩ := selMinId_spec _ _ hsel
      rcases List.mem_filter.mp hmemf with ⟨hmg, hcrit⟩
      simp only [decide_eq_true_eq] at hcrit
      refine ⟨rfl, hmg, hcrit, hfd, ?_⟩
      intro h2 hh2 hc2
      exact hmin h2 (List.mem_filter.mpr ⟨hh2, by simpa using hc2⟩)
    · rw [if_neg hfd] at ht
      cases ht

/-- C6: the probe tries the three criteria strictly in order; a usable
criterion-1 candidate always wins; whichever criterion returns, the
candidate matches that criterion, survives the full-data fetch, and has
the smallest id among all hyperedges matching that criterion; a later
criterion is reached only after the earlier ones returned nothing usable;
with an empty subject list only criterion 1 can answer; and a fact with
no objects matches criteria 1 and 2 only at hyperedges without object
edges. -/
theorem C6_append_probe_order :
    (∀ (g : List HView) (f : FactQuery) (r : HView × Nat),
      tryCriterion g f 1 = some r → findAppendableHyperedge g f = some r) ∧
    (∀ (g : List HView) (f : FactQuery) (h : HView) (k : Nat),
      findAppendableHyperedge g f = some (h, k) →
        h ∈ g ∧ critN k f h ∧ fullDataAvailable h ∧
          ∀ h2 ∈ g, critN k f h2 → strle h.id h2.id = true) ∧
    (∀ (g : List HView) (f : FactQuery) (h : HView) (k : Nat),
      findAppendableHyperedge g f = some (h, k) → 2 ≤ k →
        tryCriterion g f 1 = none) ∧
    (∀ (g : List HView) (f : FactQuery) (h : HView),
      findAppendableHyperedge g f = some (h, 3) →
        f.subjectsList ≠ [] ∧ tryCriterion g f 2 = none) ∧
    (∀ (g : List HView) (f : FactQuery) (h : HView) (k : Nat),
      f.subjectsList = [] → findAppendableHyperedge g f = some (h, k) → k = 1) ∧
    (∀ (f : FactQuery) (h : HView), f.objectsList = [] →
      (crit1 f h → h.objEdges = []) ∧ (crit2 f h → h.objEdges = [])) := by
  refine ⟨?_, ?_, ?_, ?_, ?_, ?_⟩
  · intro g f r h1
    unfold findAppendableHyperedge
    rw [h1]
  · intro g f h k hf
    unfold findAppendableHyperedge at hf
    cases h1 : tryCriterion g f 1 with
    | some r =>
      rw [h1] at hf
      injection hf with hf
      subst hf
      obtain ⟨hk, rest⟩ := tryCriterion_spec g f 1 h k h1
      subst hk
      exact rest
    | none =>
      rw [h1] at hf
      by_cases hs : f.subjectsList = []
      · simp only [if_pos hs] at hf
        cases hf
      · simp only [if_neg hs] at hf
        cases h2 : tryCriterion g f 2 with
        | some r =>
          rw [h2] at hf
          injection hf with hf
          subst hf
          obtain ⟨hk, rest⟩ := tryCriterion_spec g f 2 h k h2
          subst hk
          exact rest
        | none =>
          rw [h2] at hf
          cases h3 : tryCriterion g f 3 with
          | some r =>
            rw [h3] at hf
            injection hf with hf
            subst hf
            obtain ⟨hk, rest⟩ := tryCriterion_spec g f 3 h k h3
            subst hk
            exact rest
          | none => rw [h3] at hf; cases hf
  · intro g f h k hf hk2
    cases h1 : tryCriterion g f 1 with
    | none => rfl
    | some r =>
      unfold findAppendableHyperedge at hf
      rw [h1] at hf
      injection hf with hf
      subst hf
      obtain ⟨hk, _⟩ := tryCriterion_spec g f 1 h k h1
      omega
  · intro g f h hf
    unfold findAppendableHyperedge at hf
    cases h1 : tryCriterion g f 1 with
    | some r =>
      rw [h1] at hf
      injection hf with hf
      subst hf
      obtain ⟨hk, _⟩ := tryCriterion_spec g f 1 h 3 h1
      omega
    | none =>
      rw [h1] at hf
      by_cases hs : f.subjectsList = []
      · simp only [if_pos hs] at hf
        cases hf
      · refine ⟨hs, ?_⟩
        simp only [if_neg hs] at hf
        cases h2 : tryCriterion g f 2 with
        | none => rfl
        | some r =>
          rw [h2] at hf
          injection hf with hf
          subst hf
          obtain ⟨hk, _⟩ := tryCriterion_spec g f 2 h 3 h2
          omega
  · intro g f h k hs hf
    unfold findAppendableHyperedge at hf
    cases h1 : tryCriterion g f 1 with
    | some r =>
      rw [h1] at hf
      injection hf with hf
      subst hf
      obtain ⟨hk, _⟩ := tryCriterion_spec g f 1 h k h1
      exact hk
    | none =>
      rw [h1] at hf
      simp only [if_pos hs] at hf
      cases hf
  · intro f h hobj
    constructor
    · intro hc
      have := hc.2.1
      rw [if_neg (by simp [hobj])] at this
      exact this
    · intro hc
      have := hc.2.2
      rw [if_neg (by simp [hobj])] at this
      exact this

/-- Concrete probe input for the C6 witness. -/
def factW : FactQuery :=
  { relation := "likes", subjectsList := ["John"], objectsList := ["cats"]
    temporalTimes := [("2020", "2021")], spatialNames := ["home"] }

/-- Concrete hyperedge with the smaller id for the C6 witness. -/
def hviewA : HView :=
  { id := "he_a", relationType := "likes", subjEdges := ["John"], objEdges := ["cats"]
    ctxs := [{ fromTime := some "2020", toTime := some "2021", locationName := some "home" }] }

/-- Concrete hyperedge with the larger id for the C6 witness. -/
def hviewB : HView :=
  { id := "he_b", relationType := "likes", subjEdges := ["Mary"], objEdges := ["cats"]
    ctxs := [{ fromTime := some "2020", toTime := some "2021", locationName := some "home" }] }

/-- C6 witness: with two criterion-1 candidates the probe returns the one
with the lexicographically smaller id, under criterion 1. -/
theorem C6_append_probe_order_witness :
    findAppendableHyperedge [hviewB, hviewA] factW = some (hviewA, 1) :=
  C6_append_probe_order.1 [hviewB, hviewA] factW (hviewA, 1) (by decide)

/-- A concrete fact with no objects, matching hviewA on subjects,
relation and contexts. -/
def factNoObjs : FactQuery :=
  { relation := "likes", subjectsList := ["John"], objectsList := []
    temporalTimes := [("2020", "2021")], spatialNames := ["home"] }

/-- C6 counterexample: the claim asserts that a fact with no objects
matches only hyperedges having no object connections, but criterion 3
(cypher_generator.py lines 1050-1082) places no condition on objects:
the probe appends an objectless fact under criterion 3 to a hyperedge
that does have object edges. -/
theorem C6_counterexample :
    findAppendableHyperedge [hviewA] factNoObjs = some (hviewA, 3) ∧
      factNoObjs.objectsList = [] ∧ hviewA.objEdges ≠ [] := by decide

/-! ## Claim C4: entity_count versus CONNECTS out-degree
(cypher_generator.py lines 260-462, 1145-1344 and 852-904)

The fragment these statements touch is the entity nodes, the hyperedge
records with their entity_count property, and the CONNECTS edges, which
form a list because CREATE (unlike MERGE) adds parallel edges.  Context
and VALID_IN handling of the same statements is modelled with claims C1
and C5 and does not affect entity_count. -/

